import Mathlib

/-!
Verification of the impervious-surface pipeline (src/impervious.py and
src/pipeline.py) against its natural-language specification.

The geometry library (shapely / geopandas), the SQL and arcpy adapters and
the sha256 primitive are external collaborators of the repository; they are
modelled as explicit parameters (spatial predicates, area measures) or as
deterministic stand-in functions, while every algorithmic step of the
repository itself (hashing keys, change detection, the union fold with
attribute precedence, parcel cleansing, enrichment, the run sequencing of
`__main__`) is translated line by line.  Machine floats are modelled as exact
rationals; Python's `round` (and numpy's) rounds halves to even, which the
model reproduces.
-/

/-- Python's built-in `round` (also numpy's rounding, used by
`round(series)` in `Parcel.impervious_metrics`): round to the nearest
integer, halves to the even neighbour, modelled on exact rationals. -/
def pyRound (q : ℚ) : ℤ :=
  let f : ℤ := ⌊q⌋
  let frac : ℚ := q - f
  if frac < 1/2 then f
  else if 1/2 < frac then f + 1
  else if f % 2 = 0 then f else f + 1

namespace Surface

/-- Ordering of the hash key rows used by `Surface.__key`:
`sorted(tmp, key=lambda x: x[0])` compares only the guid component.
Guids are modelled as naturals, geometry WKB blobs as byte lists. -/
def guidLE (a b : ℕ × List ℕ) : Prop := a.1 ≤ b.1

instance : DecidableRel guidLE := fun a b => Nat.decLe a.1 b.1

instance : IsTotal (ℕ × List ℕ) guidLE := ⟨fun a b => Nat.le_total a.1 b.1⟩

instance : IsTrans (ℕ × List ℕ) guidLE := ⟨fun _ _ _ h1 h2 => le_trans h1 h2⟩

/-- Strict version of `guidLE`, used to show the sorted key is unique when
guids do not repeat. -/
def guidLT (a b : ℕ × List ℕ) : Prop := a.1 < b.1

instance : IsAntisymm (ℕ × List ℕ) guidLT :=
  ⟨fun _ _ h1 h2 => absurd (lt_trans h1 h2) (lt_irrefl _)⟩

/-- The method `Surface.__key` (src/impervious.py lines 57-67): the list of
`(guid, wkb)` pairs of the layer's records, sorted by guid.  Python's
`sorted` is a stable sort; any stable sort agrees with `insertionSort`
on the comparison used here. -/
def key (rows : List (ℕ × List ℕ)) : List (ℕ × List ℕ) :=
  List.insertionSort guidLE rows

/-- Serialization of the key that `Surface.__hash__` feeds to the digest,
`str(serial_obj).encode()`: an injective flat byte encoding of the tuple of
tuples (each pair contributes its guid, its blob length and its blob). -/
def encodeKey (k : List (ℕ × List ℕ)) : List ℕ :=
  (k.map (fun p => p.1 :: p.2.length :: p.2)).flatten

/-- Modelled from the spec: the digest of `Surface.__hash__` is the external
library primitive `hashlib.sha256` ("hash with a collision-resistant digest
(256-bit class)"); it is modelled as a deterministic 256-bit digest of the
byte stream, which captures exactly what the repository relies on: the
fingerprint is a pure function of the serialized key. -/
def digest256 (bytes : List ℕ) : ℕ :=
  bytes.foldl (fun acc b => (acc * 257 + b % 256 + 1) % 2 ^ 256) 0

/-- The method `Surface.__hash__` (src/impervious.py lines 51-55):
`int(sha256(str(self.__key())).hexdigest(), 16)`, the 256-bit digest of the
serialized sorted key. -/
def hashVal (rows : List (ℕ × List ℕ)) : ℕ :=
  digest256 (encodeKey (key rows))

end Surface

/-- One snapshot of a configured source layer: its name (the sql file stem)
and the `(guid, wkb)` rows its GeoDataFrame holds. -/
structure SourceData where
  name : String
  rows : List (ℕ × List ℕ)
deriving DecidableEq

/-- The shelve file `data/hashes` keyed by source name.  `db[name] = value`
prepends; a lookup takes the most recent entry for the name, which models
shelve's upsert. -/
abbrev HashStore := List (String × ℕ)

/-- A lookup in the shelve store: the most recent value stored under `name`,
or `none` (shelve raises `KeyError`) when the name was never stored. -/
def lookupStore (store : HashStore) (name : String) : Option ℕ :=
  (store.find? (fun e => e.1 == name)).map (fun e => e.2)

namespace Surface

/-- The method `Surface.store_hash` (src/impervious.py lines 119-122):
`db[self.name] = hash(self)`. -/
def store_hash (store : HashStore) (s : SourceData) : HashStore :=
  (s.name, hashVal s.rows) :: store

/-- The method `Surface.equals_previous` (src/impervious.py lines 124-139):
compare this run's hash against the stored one; a missing entry
(`KeyError`) yields `False`. -/
def equals_previous (store : HashStore) (s : SourceData) : Bool :=
  match lookupStore store s.name with
  | some previous => hashVal s.rows == previous
  | none => false

end Surface

/-! ## The union fold of pipeline.py (lines 101-121)

A layer of the overlay is modelled by the attribute value it carries at each
location of the plane: `none` where the layer has no feature, or where the
feature's attribute is null.  The full planar union of two GeoDataFrames
produces a row wherever either input covers, with the column `attr_1` null
outside the primary and `attr_2` null outside the secondary, so
`np.where(~union[a + "_1"].isna(), union[a + "_1"], union[a + "_2"])`
resolves each location to the primary's value when it is present and
non-null and to the secondary's value otherwise.  The resolution runs
independently for each of the priority attributes `guid` and `surftype`,
which the type parameter reflects. -/

/-- One union-overlay step with the `np.where` attribute resolution of
pipeline.py lines 108-117. -/
def mergeAttr {Loc α : Type} (primary secondary : Loc → Option α) : Loc → Option α :=
  fun loc =>
    match primary loc with
    | some v => some v
    | none => secondary loc

/-- The fold of pipeline.py lines 102-120: seed with `surfaces[0].gdf`,
then union each later source into the accumulated primary layer. -/
def mergeLayers {Loc α : Type} (seed : Loc → Option α)
    (rest : List (Loc → Option α)) : Loc → Option α :=
  rest.foldl mergeAttr seed

/-! ## The parcel cleansing of `Parcel.cleansed` (src/impervious.py lines 149-195) -/

namespace Parcel

/-- A single-part polygon: its exterior ring and its interior rings (holes).
The ring geometry itself is abstract; the spatial `within` predicate on the
hole-stripped polygons is supplied by the geometry library and appears as an
explicit parameter below. -/
structure Poly (R : Type) where
  ext : R
  holes : List R
deriving DecidableEq

variable {R : Type}

/-- The exterior-only polygon `Polygon(x.exterior)` built on line 173:
the same outer ring with every hole discarded. -/
def stripHoles (p : Poly R) : Poly R := ⟨p.ext, []⟩

/-- The flag of line 166: `len(x.interiors) > 0`. -/
def isContainer (p : Poly R) : Bool := decide (0 < p.holes.length)

/-- The explode of line 162, `gdf.explode(ignore_index=True)`: each row's
multipart geometry becomes one row per part, each part keeping the row's
attributes (modelled by a numeric attribute record). -/
def explode (rows : List (ℕ × List (Poly R))) : List (ℕ × Poly R) :=
  (rows.map (fun row => row.2.map (fun p => (row.1, p)))).flatten

/-- Lines 164-174: the exploded parts, each replaced by its exterior-only
polygon and labelled with the container flag computed on the original part. -/
def flaggedExteriors (rows : List (ℕ × List (Poly R))) : List (ℕ × Poly R × Bool) :=
  (explode rows).map (fun ap => (ap.1, stripHoles ap.2, isContainer ap.2))

/-- Line 179: the rows whose `CONTAINER` flag is set. -/
def containersOf (rows : List (ℕ × List (Poly R))) : List (ℕ × Poly R × Bool) :=
  (flaggedExteriors rows).filter (fun x => x.2.2)

/-- Line 180: the remaining rows, the candidates compared against containers. -/
def comparesOf (rows : List (ℕ × List (Poly R))) : List (ℕ × Poly R × Bool) :=
  (flaggedExteriors rows).filter (fun x => !x.2.2)

/-- The method `Parcel.cleansed` (src/impervious.py lines 149-195): keep the
containers, and keep each non-container that the `within` spatial join of
lines 185-190 matched to no container (its `index_container` is NaN).
`withinB a b` is the geometry library's predicate "the polygon with exterior
`a` lies completely within the polygon with exterior `b`". -/
def cleansed (withinB : R → R → Bool) (rows : List (ℕ × List (Poly R))) :
    List (ℕ × Poly R) :=
  (containersOf rows ++
      (comparesOf rows).filter
        (fun c => !(containersOf rows).any (fun k => withinB c.2.1.ext k.2.1.ext))).map
    (fun x => (x.1, x.2.1))

end Parcel

/-! ## The enrichment of `Parcel.impervious_metrics` (src/impervious.py lines 197-244) -/

/-- One feature of the merged surface layer handed to the enrichment. -/
structure SurfFeat (G : Type) where
  guid : ℕ
  surftype : ℕ
  geom : G
deriving DecidableEq

/-- One cleansed parcel part: its business key `COBPIN` and its geometry. -/
structure ParcelFeat (G : Type) where
  cobpin : ℕ
  geom : G
deriving DecidableEq

/-- The planar-geometry operations of the external library, over an abstract
geometry type: the `intersects` predicate of the spatial join, the area of
`surface.geometry.intersection(parcel.geometry.buffer(0))` (the
zero-distance buffer repair of line 220 is absorbed into the measure), the
area measure, and the geometric union used by `dissolve`. -/
structure GeoOps (G : Type) where
  intersects : G → G → Bool
  interArea : G → G → ℚ
  area : G → ℚ
  unionG : G → G → G

/-- The record the enrichment publishes per business key: `COBPIN`,
`IMPERVAREA` and `PERVAREA` (integral after rounding). -/
structure EnrichedParcel where
  cobpin : ℕ
  impervArea : ℤ
  pervArea : ℤ
deriving DecidableEq

namespace Parcel

variable {G : Type}

/-- The inner spatial join `surfaces.sjoin(parcels, ...)` of line 214: one
pair per (surface, parcel) whose geometries intersect, in the left
GeoDataFrame's row order.  Parcels matching no surface contribute no pair. -/
def sjoinPairs (ops : GeoOps G) (surfaces : List (SurfFeat G))
    (parcels : List (ParcelFeat G)) : List (SurfFeat G × ParcelFeat G) :=
  (surfaces.map (fun s =>
      (parcels.filter (fun p => ops.intersects s.geom p.geom)).map
        (fun p => (s, p)))).flatten

/-- Lines 218-232: per joined pair, the parcel key, the rounded intersection
area `round(sjoin.intersection.area)` and the parcel geometry column
`geoms`. -/
def enrichRows (ops : GeoOps G) (surfaces : List (SurfFeat G))
    (parcels : List (ParcelFeat G)) : List (ℕ × ℤ × G) :=
  (sjoinPairs ops surfaces parcels).map
    (fun sp => (sp.2.cobpin, pyRound (ops.interArea sp.1.geom sp.2.geom), sp.2.geom))

/-- The group keys of `dissolve(by=["COBPIN"])`: the distinct `COBPIN`
values, in ascending order (pandas sorts group keys). -/
def dissolveKeys (rows : List (ℕ × ℤ × G)) : List ℕ :=
  (List.insertionSort (fun a b => a ≤ b) (rows.map (fun r => r.1))).dedup

/-- The rows of one dissolve group. -/
def groupRows (rows : List (ℕ × ℤ × G)) (k : ℕ) : List (ℕ × ℤ × G) :=
  rows.filter (fun r => r.1 == k)

/-- `IMPERVAREA` after dissolve: the sum aggregation of the group's rounded
intersection areas. -/
def impervSum (rows : List (ℕ × ℤ × G)) (k : ℕ) : ℤ :=
  ((groupRows rows k).map (fun r => r.2.1)).sum

/-- The geometric union of a group's geometries (dissolve's geometry
aggregation); `none` for an empty group, which never arises for a dissolve
key. -/
def unionAll (ops : GeoOps G) : List G → Option G
  | [] => none
  | g :: gs => some (gs.foldl ops.unionG g)

/-- The area of the dissolved geometry of the group of `k`. -/
def dissolvedArea (ops : GeoOps G) (rows : List (ℕ × ℤ × G)) (k : ℕ) : ℚ :=
  ((unionAll ops ((groupRows rows k).map (fun r => r.2.2))).map ops.area).getD 0

/-- One output record of the dissolve, lines 236-242:
`PERVAREA = round(dissolve.geometry.area) - IMPERVAREA`. -/
def enrichKey (ops : GeoOps G) (rows : List (ℕ × ℤ × G)) (k : ℕ) : EnrichedParcel :=
  ⟨k, impervSum rows k, pyRound (dissolvedArea ops rows k) - impervSum rows k⟩

/-- The method `Parcel.impervious_metrics` (src/impervious.py lines
197-244), on the already-cleansed parcel parts. -/
def impervious_metrics (ops : GeoOps G) (surfaces : List (SurfFeat G))
    (parcels : List (ParcelFeat G)) : List EnrichedParcel :=
  (dissolveKeys (enrichRows ops surfaces parcels)).map
    (enrichKey ops (enrichRows ops surfaces parcels))

/-- The joined pairs contributing to the dissolve group of key `k`. -/
def groupPairs (ops : GeoOps G) (surfaces : List (SurfFeat G))
    (parcels : List (ParcelFeat G)) (k : ℕ) : List (SurfFeat G × ParcelFeat G) :=
  (sjoinPairs ops surfaces parcels).filter (fun sp => sp.2.cobpin == k)

end Parcel

/-! ## The run sequencing of pipeline.py's `__main__` block (lines 71-179)

The observable state a run mutates: the two database tables written through
`GeoSQL.truncate_arcpy` / `GeoSQL.insert_arcpy`, the two shapefile sinks, and
the shelve hash store.  Exceptions of the external adapters are injected
through a fault record; a faulted call raises before mutating anything (each
arcpy call is a single library call), and every exception raised inside the
`try` block lands in the top-level `except` handler of lines 178-179, which
logs and ends the run.  Note `truncate_arcpy` and `insert_arcpy` are two
separate arcpy calls: nothing rolls the truncate back when the insert
raises. -/

/-- The externally visible state of a run. -/
structure World where
  hashStore : HashStore
  impervTable : List ℕ
  parcelTable : List ℕ
  impervFile : Option (List ℕ)
  parcelFile : Option (List ℕ)
deriving DecidableEq

/-- Which external calls raise, and on which attempt the database inserts
fail (the attempt argument makes the spec's retry scenarios expressible:
a sink that fails twice then succeeds is `fun n => n < 3`). -/
structure Faults where
  mergeFails : Bool
  impervFileWrite : Bool
  impervTruncate : Bool
  impervInsertFails : ℕ → Bool
  enrichFails : Bool
  parcelFileWrite : Bool
  parcelTruncate : Bool
  parcelInsertFails : ℕ → Bool

/-- A run during which no external call raises. -/
def Faults.clean : Faults :=
  ⟨false, false, false, fun _ => false, false, false, false, fun _ => false⟩

/-- What a run did: the final world, how many times each database insert was
attempted, whether the run exited at the unchanged check (line 99), whether
the top-level handler caught an exception, and whether the hash-commit step
of line 176 was reached. -/
structure RunResult where
  world : World
  impervInsertAttempts : ℕ
  parcelInsertAttempts : ℕ
  skipped : Bool
  failed : Bool
  committed : Bool
deriving DecidableEq

/-- The `__main__` block of src/pipeline.py from the change check on
(lines 94-179).  `mergedRows` stands for the merged surface rows the fold of
lines 101-128 produces, published verbatim to the file and database sinks;
`parcelRows` for the enriched parcel rows line 155 would produce — never
published, because the `Parcel` construction of line 154 raises first (see
below), so the parcel sinks and the hash commit are unreachable in the
shipped code. -/
def runMain (sources : List SourceData) (faults : Faults)
    (mergedRows parcelRows : List ℕ) (w0 : World) : RunResult :=
  -- lines 94-99: filter the changed layers, exit when there are none
  let changes := sources.filter (fun s => !Surface.equals_previous w0.hashStore s)
  if changes.isEmpty then ⟨w0, 0, 0, true, false, false⟩
  else
  -- lines 101-128: the union fold and dissolve (pure computation)
  if faults.mergeFails then ⟨w0, 0, 0, false, true, false⟩
  else
  -- line 135: final[final_fields].to_file(IMPERVIOUS_OUT)
  if faults.impervFileWrite then ⟨w0, 0, 0, false, true, false⟩
  else
  let w1 : World := { w0 with impervFile := some mergedRows }
  -- line 149: sql_imperv.truncate_arcpy()
  if faults.impervTruncate then ⟨w1, 0, 0, false, true, false⟩
  else
  let w2 : World := { w1 with impervTable := [] }
  -- line 150: sql_imperv.insert_arcpy(IMPERVIOUS_OUT), one Append_management call
  if faults.impervInsertFails 1 then ⟨w2, 1, 0, false, true, false⟩
  else
  let w3 : World := { w2 with impervTable := mergedRows }
  -- line 154: Parcel(QUERY_PATH / 'parcels.sql') omits the required db_user
  -- and db_pass arguments of Parcel.__init__ (impervious.py lines 143-146),
  -- so every run reaching this line raises TypeError deterministically; the
  -- handler of lines 178-179 catches it.  The parcel enrichment (line 155),
  -- the parcel file and database sinks (lines 157-172) and the hash commit
  -- (line 176) are dead code: the enrich and parcel-sink faults and
  -- parcelRows are never consulted, and `committed` is never set.
  ⟨w3, 1, 0, false, true, false⟩

/-! ## Helper lemmas -/

/-- A chain sorted by guid with duplicate-free guids is strictly sorted. -/
lemma sorted_guidLT_of_nodup {l : List (ℕ × List ℕ)}
    (hs : l.Sorted Surface.guidLE) (hn : (l.map Prod.fst).Nodup) :
    l.Sorted Surface.guidLT := by
  have hne : l.Pairwise (fun a b => a.1 ≠ b.1) := List.pairwise_map.mp hn
  have hle : l.Pairwise Surface.guidLE := hs
  exact (hle.and hne).imp (fun h => lt_of_le_of_ne h.1 h.2)

/-- Sorting by guid is permutation-invariant once guids do not repeat. -/
lemma key_eq_of_perm (rows rows' : List (ℕ × List ℕ)) (hperm : rows.Perm rows')
    (hids : (rows.map Prod.fst).Nodup) : Surface.key rows = Surface.key rows' := by
  have h1 := List.perm_insertionSort Surface.guidLE rows
  have h2 := List.perm_insertionSort Surface.guidLE rows'
  have hp : (Surface.key rows).Perm (Surface.key rows') := h1.trans (hperm.trans h2.symm)
  have hn1 : ((Surface.key rows).map Prod.fst).Nodup :=
    ((h1.map Prod.fst).nodup_iff).mpr hids
  have hn2 : ((Surface.key rows').map Prod.fst).Nodup :=
    ((hp.map Prod.fst).nodup_iff).mp hn1
  exact List.eq_of_perm_of_sorted hp
    (sorted_guidLT_of_nodup (List.sorted_insertionSort Surface.guidLE rows) hn1)
    (sorted_guidLT_of_nodup (List.sorted_insertionSort Surface.guidLE rows') hn2)

/-- The digest never leaves the 256-bit range. -/
lemma digest256_lt (bytes : List ℕ) : Surface.digest256 bytes < 2 ^ 256 := by
  have h : ∀ (l : List ℕ) (acc : ℕ), acc < 2 ^ 256 →
      l.foldl (fun acc b => (acc * 257 + b % 256 + 1) % 2 ^ 256) acc < 2 ^ 256 := by
    intro l
    induction l with
    | nil => intro acc hacc; exact hacc
    | cons b bs ih => intro acc _; exact ih _ (Nat.mod_lt _ (by positivity))
  exact h _ 0 (by positivity)

/-- The merge fold resolves every location to the first layer of the chain
that carries a value there. -/
lemma mergeLayers_eq_findSome {Loc α : Type} (seed : Loc → Option α)
    (rest : List (Loc → Option α)) (loc : Loc) :
    mergeLayers seed rest loc = ((seed :: rest).map (fun l => l loc)).findSome? id := by
  induction rest generalizing seed with
  | nil =>
      cases h : seed loc <;>
        simp [mergeLayers, List.findSome?_cons, h, List.findSome?]
  | cons r rs ih =>
      have hstep : mergeLayers seed (r :: rs) loc = mergeLayers (mergeAttr seed r) rs loc := rfl
      rw [hstep, ih]
      cases h : seed loc with
      | none => simp [List.findSome?_cons, mergeAttr, h]
      | some v => simp [List.findSome?_cons, mergeAttr, h]

/-! ## Claims -/

/-- C5: for every ordered list of sources and every location, each union
step resolves a priority attribute to the accumulated value when present
and non-null and to the newly overlaid source's value otherwise; the merged
value is the first source in the chain carrying a value at the location, so
the first source dominates any area of spatial overlap with later ones. -/
theorem merge_first_wins {Loc α : Type} (seed : Loc → Option α)
    (rest : List (Loc → Option α)) (loc : Loc) :
    (∀ primary secondary : Loc → Option α,
        mergeAttr primary secondary loc =
          if (primary loc).isSome then primary loc else secondary loc) ∧
    mergeLayers seed rest loc = ((seed :: rest).map (fun l => l loc)).findSome? id ∧
    (∀ v : α, seed loc = some v → mergeLayers seed rest loc = some v) := by
  refine ⟨?_, mergeLayers_eq_findSome seed rest loc, ?_⟩
  · intro primary secondary
    unfold mergeAttr
    cases h : primary loc <;> simp [h]
  · intro v hv
    rw [mergeLayers_eq_findSome]
    simp [List.findSome?_cons, hv]

/-- C6: the fingerprint is a pure function of the multiset of (id, wkb)
pairs: two snapshots holding the same features in any element order hash
identically (ids not repeating within a snapshot), and the digest is a
256-bit value. -/
theorem fingerprint_order_independent (rows rows' : List (ℕ × List ℕ))
    (hperm : rows.Perm rows') (hids : (rows.map Prod.fst).Nodup) :
    Surface.hashVal rows = Surface.hashVal rows' ∧ Surface.hashVal rows < 2 ^ 256 := by
  constructor
  · unfold Surface.hashVal
    rw [key_eq_of_perm rows rows' hperm hids]
  · exact digest256_lt _

theorem fingerprint_order_independent_witness :
    Surface.hashVal [(2, [5]), (1, [7])] = Surface.hashVal [(1, [7]), (2, [5])] ∧
    Surface.hashVal [(2, [5]), (1, [7])] < 2 ^ 256 :=
  fingerprint_order_independent [(2, [5]), (1, [7])] [(1, [7]), (2, [5])]
    (by decide) (by decide)

/-- C7: when no fingerprint is stored for the source's name (first run or
missing cache entry), `equals_previous` returns `false`, so the source is
treated as changed. -/
theorem equals_previous_false_on_missing (store : HashStore) (s : SourceData)
    (h : lookupStore store s.name = none) :
    Surface.equals_previous store s = false := by
  simp [Surface.equals_previous, h]

theorem equals_previous_false_on_missing_witness :
    Surface.equals_previous [("buildings", 5)] ⟨"driveways", [(1, [2])]⟩ = false :=
  equals_previous_false_on_missing [("buildings", 5)] ⟨"driveways", [(1, [2])]⟩ (by decide)

/-- Committing hashes never touches entries until the commit loop: folding
`store_hash` over sources whose names avoid `name` leaves the lookup of
`name` unchanged. -/
lemma lookup_foldl_store_of_not_mem (sources : List SourceData) (st : HashStore)
    (name : String) (h : ∀ u ∈ sources, u.name ≠ name) :
    lookupStore (sources.foldl Surface.store_hash st) name = lookupStore st name := by
  induction sources generalizing st with
  | nil => rfl
  | cons t ts ih =>
      rw [List.foldl_cons, ih (Surface.store_hash st t)
        (fun u hu => h u (List.mem_cons_of_mem t hu))]
      have hb : (t.name == name) = false :=
        beq_eq_false_iff_ne.mpr (h t (List.mem_cons_self t ts))
      simp [lookupStore, Surface.store_hash, List.find?_cons, hb]

/-- After the commit loop of line 176 every source compares equal to its
stored fingerprint, provided the configured names do not repeat.  This is
the commit behaviour the unchanged-skip scenario of the spec relies on;
in the shipped code the loop is unreachable, because the `Parcel`
construction of pipeline.py line 154 raises first (see `runMain`). -/
lemma equals_previous_after_commit (sources : List SourceData) :
    ∀ st : HashStore, (sources.map SourceData.name).Nodup →
      ∀ s ∈ sources,
        Surface.equals_previous (sources.foldl Surface.store_hash st) s = true := by
  induction sources with
  | nil =>
      intro st _ s hs
      cases hs
  | cons t ts ih =>
      intro st hnd s hs
      rw [List.foldl_cons]
      rcases List.mem_cons.mp hs with rfl | hmem
      · have hnot : ∀ u ∈ ts, u.name ≠ s.name := by
          intro u hu he
          exact (List.nodup_cons.mp hnd).1 (he ▸ List.mem_map_of_mem SourceData.name hu)
        have h1 : lookupStore (ts.foldl Surface.store_hash (Surface.store_hash st s)) s.name
            = lookupStore (Surface.store_hash st s) s.name :=
          lookup_foldl_store_of_not_mem ts (Surface.store_hash st s) s.name hnot
        have h2 : lookupStore (Surface.store_hash st s) s.name
            = some (Surface.hashVal s.rows) := by
          simp [lookupStore, Surface.store_hash, List.find?_cons]
        unfold Surface.equals_previous
        rw [h1, h2]
        simp
      · exact ih (Surface.store_hash st t) (List.nodup_cons.mp hnd).2 s hmem

/-- When every source compares equal to its stored fingerprint, the run
exits at line 99 having touched nothing. -/
lemma runMain_skips_of_unchanged (sources : List SourceData) (faults : Faults)
    (m p : List ℕ) (w0 : World)
    (h : ∀ s ∈ sources, Surface.equals_previous w0.hashStore s = true) :
    runMain sources faults m p w0 = ⟨w0, 0, 0, true, false, false⟩ := by
  unfold runMain
  have hempty :
      (sources.filter (fun s => !Surface.equals_previous w0.hashStore s)).isEmpty = true := by
    rw [List.isEmpty_iff, List.filter_eq_nil_iff]
    intro s hs
    simp [h s hs]
  simp [hempty]

/-- Structural facts holding for every run: the hash store is written only
by the commit step of line 176, each database insert is attempted at most
once, and a run the top-level handler caught never reaches the commit. -/
lemma runMain_invariants (sources : List SourceData) (faults : Faults)
    (m p : List ℕ) (w0 : World) :
    ((runMain sources faults m p w0).committed = false →
      (runMain sources faults m p w0).world.hashStore = w0.hashStore) ∧
    (runMain sources faults m p w0).impervInsertAttempts ≤ 1 ∧
    (runMain sources faults m p w0).parcelInsertAttempts ≤ 1 ∧
    ((runMain sources faults m p w0).failed = true →
      (runMain sources faults m p w0).committed = false) := by
  unfold runMain
  by_cases h1 :
      (sources.filter (fun s => !Surface.equals_previous w0.hashStore s)).isEmpty = true
  · simp [h1]
  · by_cases h2 : faults.mergeFails = true
    · simp [h1, h2]
    · by_cases h3 : faults.impervFileWrite = true
      · simp [h1, h2, h3]
      · by_cases h4 : faults.impervTruncate = true
        · simp [h1, h2, h3, h4]
        · by_cases h5 : faults.impervInsertFails 1 = true
          · simp [h1, h2, h3, h4, h5]
          · simp [h1, h2, h3, h4, h5]

/-- C1 amended: a run whose top-level handler catches an exception before
the hash-commit step leaves every previously committed fingerprint exactly
as it was — but not the previously published data (see the truncate
counterexample). -/
theorem failed_run_preserves_hashStore (sources : List SourceData) (faults : Faults)
    (mergedRows parcelRows : List ℕ) (w0 : World)
    (h : (runMain sources faults mergedRows parcelRows w0).committed = false) :
    (runMain sources faults mergedRows parcelRows w0).world.hashStore = w0.hashStore :=
  (runMain_invariants sources faults mergedRows parcelRows w0).1 h

/-- A state left by an earlier successful run: the authoritative tables
hold published rows, no fingerprint is cached for the configured source. -/
def prevWorld : World := ⟨[], [42], [43], some [42], some [43]⟩

/-- One configured source (its change check finds no stored fingerprint, so
the run proceeds to publish). -/
def oneSource : List SourceData := [⟨"buildings", [(1, [0])]⟩]

/-- A database sink whose `Append_management` raises on every attempt. -/
def insertAlwaysFails : Faults :=
  { Faults.clean with impervInsertFails := fun _ => true }

/-- C1 counterexample: the run truncates `PW.ImperviousSurfaces` (line 149),
the following insert (line 150) raises, the handler of line 178 swallows
the exception — and the previously published rows are gone: the truncate is
a separate arcpy call that nothing rolls back, so this failed run does
destroy previously published data. -/
theorem truncate_survives_failed_run :
    (runMain oneSource insertAlwaysFails [9] [9] prevWorld).failed = true ∧
    (runMain oneSource insertAlwaysFails [9] [9] prevWorld).world.impervTable = [] ∧
    prevWorld.impervTable = [42] ∧
    (runMain oneSource insertAlwaysFails [9] [9] prevWorld).world.impervTable ≠
      prevWorld.impervTable := by
  decide

theorem failed_run_preserves_hashStore_witness :
    (runMain oneSource insertAlwaysFails [9] [9] prevWorld).world.hashStore =
      prevWorld.hashStore :=
  failed_run_preserves_hashStore oneSource insertAlwaysFails [9] [9] prevWorld (by decide)

/-- A database sink that raises on attempts 1 and 2 and would succeed on
attempt 3 — the spec's retry scenario. -/
def failsTwiceThenSucceeds : Faults :=
  { Faults.clean with impervInsertFails := fun n => decide (n < 3) }

/-- C2 counterexample: against a database sink that fails twice and would
succeed on the third attempt, the pipeline makes exactly one write attempt
(src/ has no retry loop), the run fails, and the fingerprint-commit step is
never reached — not three attempts ending in a successful commit. -/
theorem no_retry_counterexample :
    (runMain oneSource failsTwiceThenSucceeds [9] [9] prevWorld).impervInsertAttempts = 1 ∧
    (runMain oneSource failsTwiceThenSucceeds [9] [9] prevWorld).impervInsertAttempts ≠ 3 ∧
    (runMain oneSource failsTwiceThenSucceeds [9] [9] prevWorld).failed = true ∧
    (runMain oneSource failsTwiceThenSucceeds [9] [9] prevWorld).committed = false := by
  decide

/-- C2 amended: each database sink write is attempted exactly once — never
retried, with no backoff — and a run in which any write raises is caught by
the top-level handler without reaching the fingerprint-commit step. -/
theorem insert_attempted_once (sources : List SourceData) (faults : Faults)
    (mergedRows parcelRows : List ℕ) (w0 : World) :
    (runMain sources faults mergedRows parcelRows w0).impervInsertAttempts ≤ 1 ∧
    (runMain sources faults mergedRows parcelRows w0).parcelInsertAttempts ≤ 1 ∧
    ((runMain sources faults mergedRows parcelRows w0).failed = true →
      (runMain sources faults mergedRows parcelRows w0).committed = false) :=
  ⟨(runMain_invariants sources faults mergedRows parcelRows w0).2.1,
   (runMain_invariants sources faults mergedRows parcelRows w0).2.2.1,
   (runMain_invariants sources faults mergedRows parcelRows w0).2.2.2⟩

/-- C8: the unchanged-skip scenario evaluated on the shipped code.  The
first half of the claim holds (an all-unchanged run exits at line 99
touching nothing, `runMain_skips_of_unchanged`), but the two-run scenario
does not: with one changed source and every external adapter healthy, the
first run fails — the `Parcel` construction of pipeline.py line 154 raises
TypeError before the hash commit of line 176 — so the second run finds the
store unchanged, does not skip, and fails the same way.  This theorem
evaluates both runs at that failing input. -/
theorem second_run_repeats_work :
    (runMain oneSource Faults.clean [9] [9] prevWorld).failed = true ∧
    (runMain oneSource Faults.clean [9] [9] prevWorld).committed = false ∧
    (runMain oneSource Faults.clean [9] [9]
        (runMain oneSource Faults.clean [9] [9] prevWorld).world).skipped = false ∧
    (runMain oneSource Faults.clean [9] [9]
        (runMain oneSource Faults.clean [9] [9] prevWorld).world).failed = true := by
  decide

/-- Membership in the flagged-exteriors table of lines 164-174. -/
lemma mem_flaggedExteriors {R : Type} (rows : List (ℕ × List (Parcel.Poly R)))
    (x : ℕ × Parcel.Poly R × Bool) :
    x ∈ Parcel.flaggedExteriors rows ↔
      ∃ a p, (a, p) ∈ Parcel.explode rows ∧
        x = (a, Parcel.stripHoles p, Parcel.isContainer p) := by
  unfold Parcel.flaggedExteriors
  rw [List.mem_map]
  constructor
  · rintro ⟨⟨a, p⟩, hmem, rfl⟩
    exact ⟨a, p, hmem, rfl⟩
  · rintro ⟨a, p, hmem, rfl⟩
    exact ⟨(a, p), hmem, rfl⟩

/-- Membership among the container rows of line 179. -/
lemma mem_containersOf {R : Type} (rows : List (ℕ × List (Parcel.Poly R)))
    (x : ℕ × Parcel.Poly R × Bool) :
    x ∈ Parcel.containersOf rows ↔
      ∃ b c, (b, c) ∈ Parcel.explode rows ∧ Parcel.isContainer c = true ∧
        x = (b, Parcel.stripHoles c, Parcel.isContainer c) := by
  unfold Parcel.containersOf
  rw [List.mem_filter, mem_flaggedExteriors]
  constructor
  · rintro ⟨⟨b, c, hc, rfl⟩, hflag⟩
    exact ⟨b, c, hc, by simpa using hflag, rfl⟩
  · rintro ⟨b, c, hc, hcont, rfl⟩
    exact ⟨⟨b, c, hc, rfl⟩, by simpa using hcont⟩

/-- Membership among the compare rows of line 180. -/
lemma mem_comparesOf {R : Type} (rows : List (ℕ × List (Parcel.Poly R)))
    (x : ℕ × Parcel.Poly R × Bool) :
    x ∈ Parcel.comparesOf rows ↔
      ∃ b c, (b, c) ∈ Parcel.explode rows ∧ Parcel.isContainer c = false ∧
        x = (b, Parcel.stripHoles c, Parcel.isContainer c) := by
  unfold Parcel.comparesOf
  rw [List.mem_filter, mem_flaggedExteriors]
  constructor
  · rintro ⟨⟨b, c, hc, rfl⟩, hflag⟩
    exact ⟨b, c, hc, by simpa using hflag, rfl⟩
  · rintro ⟨b, c, hc, hcont, rfl⟩
    exact ⟨⟨b, c, hc, rfl⟩, by simpa using hcont⟩

/-- C9: the cleansed set is exactly containers together with the
non-containers lying within no container, every part replaced by its
exterior-only (hole-stripped) polygon: a record is kept iff it is the
hole-stripped image of an exploded part that either has an interior ring
(a container) or has none and lies completely within no container's
exterior footprint. -/
theorem cleansed_is_containers_union {R : Type} (withinB : R → R → Bool)
    (rows : List (ℕ × List (Parcel.Poly R))) (a : ℕ) (q : Parcel.Poly R) :
    (a, q) ∈ Parcel.cleansed withinB rows ↔
      ∃ p, (a, p) ∈ Parcel.explode rows ∧ q = Parcel.stripHoles p ∧
        (Parcel.isContainer p = true ∨
          (Parcel.isContainer p = false ∧
            ∀ b c, (b, c) ∈ Parcel.explode rows → Parcel.isContainer c = true →
              withinB p.ext c.ext = false)) := by
  unfold Parcel.cleansed
  rw [List.mem_map]
  constructor
  · rintro ⟨x, hx, hxeq⟩
    rw [List.mem_append] at hx
    rcases hx with hx | hx
    · rw [mem_containersOf] at hx
      obtain ⟨b, c, hc, hcont, rfl⟩ := hx
      obtain ⟨rfl, rfl⟩ : b = a ∧ Parcel.stripHoles c = q := by
        simpa using hxeq
      exact ⟨c, hc, rfl, Or.inl hcont⟩
    · rw [List.mem_filter] at hx
      obtain ⟨hcomp, hnot⟩ := hx
      rw [mem_comparesOf] at hcomp
      obtain ⟨b, c, hc, hcont, rfl⟩ := hcomp
      obtain ⟨rfl, rfl⟩ : b = a ∧ Parcel.stripHoles c = q := by
        simpa using hxeq
      refine ⟨c, hc, rfl, Or.inr ⟨hcont, ?_⟩⟩
      intro b' c' hc' hcont'
      rw [Bool.not_eq_true', List.any_eq_false] at hnot
      have hmem : (b', Parcel.stripHoles c', Parcel.isContainer c')
          ∈ Parcel.containersOf rows :=
        (mem_containersOf rows _).mpr ⟨b', c', hc', hcont', rfl⟩
      simpa [Parcel.stripHoles] using hnot _ hmem
  · rintro ⟨p, hp, rfl, hcase⟩
    rcases hcase with hcont | ⟨hncont, hwithin⟩
    · refine ⟨(a, Parcel.stripHoles p, Parcel.isContainer p), ?_, rfl⟩
      rw [List.mem_append]
      exact Or.inl ((mem_containersOf rows _).mpr ⟨a, p, hp, hcont, rfl⟩)
    · refine ⟨(a, Parcel.stripHoles p, Parcel.isContainer p), ?_, rfl⟩
      rw [List.mem_append]
      refine Or.inr (List.mem_filter.mpr
        ⟨(mem_comparesOf rows _).mpr ⟨a, p, hp, hncont, rfl⟩, ?_⟩)
      rw [Bool.not_eq_true', List.any_eq_false]
      intro k hk
      rw [mem_containersOf] at hk
      obtain ⟨b', c', hc', hcont', rfl⟩ := hk
      simpa [Parcel.stripHoles] using hwithin b' c' hc' hcont'

/-- Rounding moves a value by at most one half. -/
lemma abs_pyRound_sub_le (q : ℚ) : |(pyRound q : ℚ) - q| ≤ 1/2 := by
  simp only [pyRound]
  have h0 : (0 : ℚ) ≤ q - ⌊q⌋ := by
    have := Int.floor_le q
    linarith
  have h1 : q - ⌊q⌋ < 1 := by
    have := Int.lt_floor_add_one q
    linarith
  split_ifs with hlt hgt hev
  · rw [abs_le]
    constructor <;> linarith
  · push_cast
    rw [abs_le]
    constructor <;> linarith
  · have hhalf : q - ⌊q⌋ = 1/2 := le_antisymm (not_lt.mp hgt) (not_lt.mp hlt)
    rw [abs_le]
    constructor <;> linarith
  · have hhalf : q - ⌊q⌋ = 1/2 := le_antisymm (not_lt.mp hgt) (not_lt.mp hlt)
    push_cast
    rw [abs_le]
    constructor <;> linarith

/-- The integer sum of rounded values, cast back to the rationals. -/
lemma cast_sum_pyRound (l : List ℚ) :
    (((l.map (fun q => pyRound q)).sum : ℤ) : ℚ)
      = (l.map (fun q => (pyRound q : ℚ))).sum := by
  induction l with
  | nil => simp
  | cons a t ih => simp [ih]

/-- Summing individually rounded values stays within half a unit per
summand of the exact sum. -/
lemma abs_sum_pyRound_sub (l : List ℚ) :
    |(l.map (fun q => (pyRound q : ℚ))).sum - l.sum| ≤ (l.length : ℚ) / 2 := by
  induction l with
  | nil => simp
  | cons a t ih =>
      simp only [List.map_cons, List.sum_cons, List.length_cons]
      have h1 := abs_pyRound_sub_le a
      have h2 : ((pyRound a : ℚ) + (t.map (fun q => (pyRound q : ℚ))).sum) - (a + t.sum)
          = ((pyRound a : ℚ) - a) + ((t.map (fun q => (pyRound q : ℚ))).sum - t.sum) := by
        ring
      rw [h2]
      have h3 := abs_add ((pyRound a : ℚ) - a)
        ((t.map (fun q => (pyRound q : ℚ))).sum - t.sum)
      push_cast
      linarith

/-- Membership in the inner spatial join of line 214. -/
lemma mem_sjoinPairs {G : Type} (ops : GeoOps G) (surfaces : List (SurfFeat G))
    (parcels : List (ParcelFeat G)) (sp : SurfFeat G × ParcelFeat G) :
    sp ∈ Parcel.sjoinPairs ops surfaces parcels ↔
      sp.1 ∈ surfaces ∧ sp.2 ∈ parcels ∧ ops.intersects sp.1.geom sp.2.geom = true := by
  unfold Parcel.sjoinPairs
  rw [List.mem_flatten]
  constructor
  · rintro ⟨l, hl, hsp⟩
    rw [List.mem_map] at hl
    obtain ⟨s, hs, rfl⟩ := hl
    rw [List.mem_map] at hsp
    obtain ⟨pp, hpp, rfl⟩ := hsp
    rw [List.mem_filter] at hpp
    exact ⟨hs, hpp.1, hpp.2⟩
  · rintro ⟨h1, h2, h3⟩
    refine ⟨(parcels.filter (fun p => ops.intersects sp.1.geom p.geom)).map
      (fun p => (sp.1, p)), List.mem_map_of_mem _ h1, ?_⟩
    rw [List.mem_map]
    exact ⟨sp.2, List.mem_filter.mpr ⟨h2, h3⟩, Prod.mk.eta⟩

/-- A dissolve group of the enrichment rows is the image of the joined
pairs carrying that business key. -/
lemma groupRows_enrichRows {G : Type} (ops : GeoOps G) (surfaces : List (SurfFeat G))
    (parcels : List (ParcelFeat G)) (k : ℕ) :
    Parcel.groupRows (Parcel.enrichRows ops surfaces parcels) k
      = (Parcel.groupPairs ops surfaces parcels k).map
          (fun sp => (sp.2.cobpin, pyRound (ops.interArea sp.1.geom sp.2.geom),
            sp.2.geom)) := by
  unfold Parcel.groupRows Parcel.enrichRows Parcel.groupPairs
  rw [List.filter_map]
  rfl

/-- Geometry operations over a toy plane in which nothing intersects: the
single parcel (area 100) is disjoint from the single surface feature. -/
def apartOps : GeoOps ℕ := ⟨fun _ _ => false, fun _ _ => 0, fun _ => 100, fun g _ => g⟩

/-- A cleansed parcel away from every surface. -/
def lonelyParcel : ParcelFeat ℕ := ⟨7, 0⟩

/-- A surface feature away from the parcel. -/
def apartSurface : SurfFeat ℕ := ⟨1, 1, 1⟩

/-- C3 counterexample: a cleansed parcel whose geometry intersects no
surface feature yields no output record at all — the inner spatial join of
line 214 drops it before the dissolve — rather than one record with
impervious area 0 and pervious area equal to the parcel's area. -/
theorem no_surface_parcel_dropped :
    Parcel.impervious_metrics apartOps [apartSurface] [lonelyParcel] = [] ∧
    ¬ ∃ r ∈ Parcel.impervious_metrics apartOps [apartSurface] [lonelyParcel],
        r.cobpin = 7 := by
  decide

/-- C3 amended: a parcel business key all of whose cleansed parts intersect
no surface feature is absent from the enrichment output entirely: the
inner spatial join produces no row for it, so no record — with zero or any
other impervious area — is emitted. -/
theorem no_intersection_no_record {G : Type} (ops : GeoOps G)
    (surfaces : List (SurfFeat G)) (parcels : List (ParcelFeat G)) (k : ℕ)
    (h : ∀ pf ∈ parcels, pf.cobpin = k →
      ∀ s ∈ surfaces, ops.intersects s.geom pf.geom = false) :
    k ∉ (Parcel.impervious_metrics ops surfaces parcels).map EnrichedParcel.cobpin := by
  intro hk
  rw [List.mem_map] at hk
  obtain ⟨r, hr, hrk⟩ := hk
  unfold Parcel.impervious_metrics at hr
  rw [List.mem_map] at hr
  obtain ⟨k', hk', rfl⟩ := hr
  have hkk : k' = k := hrk
  subst hkk
  unfold Parcel.dissolveKeys at hk'
  rw [List.mem_dedup] at hk'
  have hk2 : k' ∈ (Parcel.enrichRows ops surfaces parcels).map (fun r => r.1) :=
    (List.perm_insertionSort (fun a b => a ≤ b) _).mem_iff.mp hk'
  rw [List.mem_map] at hk2
  obtain ⟨row, hrow, hrowk⟩ := hk2
  unfold Parcel.enrichRows at hrow
  rw [List.mem_map] at hrow
  obtain ⟨sp, hsp, rfl⟩ := hrow
  rw [mem_sjoinPairs] at hsp
  obtain ⟨hs, hp, hint⟩ := hsp
  have hfalse := h sp.2 hp hrowk sp.1 hs
  rw [hint] at hfalse
  cases hfalse

theorem no_intersection_no_record_witness :
    7 ∉ (Parcel.impervious_metrics apartOps [apartSurface] [lonelyParcel]).map
        EnrichedParcel.cobpin :=
  no_intersection_no_record apartOps [apartSurface] [lonelyParcel] 7 (by decide)

/-- A parcel of area 1.2 fully covered by two disjoint surface regions
whose intersections with it measure 0.6 each (a partition of the parcel,
geometrically realizable). -/
def sliverOps : GeoOps ℕ := ⟨fun _ _ => true, fun _ _ => 3/5, fun _ => 6/5, fun g _ => g⟩

/-- The covered parcel. -/
def sliverParcel : ParcelFeat ℕ := ⟨7, 0⟩

/-- First covering surface region. -/
def sliverSurfA : SurfFeat ℕ := ⟨1, 1, 1⟩

/-- Second covering surface region. -/
def sliverSurfB : SurfFeat ℕ := ⟨2, 1, 2⟩

/-- C4 counterexample: each 0.6 intersection rounds to 1, the summed
impervious area 2 exceeds the rounded parcel area 1, and the pervious area
is published as -1: line 241 computes it as a plain difference, with no
clamp at zero. -/
theorem pervious_negative_counterexample :
    Parcel.impervious_metrics sliverOps [sliverSurfA, sliverSurfB] [sliverParcel]
      = [⟨7, 2, -1⟩] ∧
    (⟨7, 2, -1⟩ : EnrichedParcel).pervArea < 0 := by
  with_unfolding_all decide

/-- C4 amended: every published record satisfies the exact identity
`IMPERVAREA + PERVAREA = round(dissolved parcel area)` — conservation holds
against the rounded total area — but `PERVAREA` is the bare difference,
never clamped, and can be negative (see the counterexample). -/
theorem perv_conservation_unclamped {G : Type} (ops : GeoOps G)
    (surfaces : List (SurfFeat G)) (parcels : List (ParcelFeat G)) (r : EnrichedParcel)
    (h : r ∈ Parcel.impervious_metrics ops surfaces parcels) :
    r.impervArea + r.pervArea
      = pyRound (Parcel.dissolvedArea ops
          (Parcel.enrichRows ops surfaces parcels) r.cobpin) := by
  unfold Parcel.impervious_metrics at h
  rw [List.mem_map] at h
  obtain ⟨k, _, rfl⟩ := h
  unfold Parcel.enrichKey
  ring

theorem perv_conservation_unclamped_witness :
    (⟨7, 2, -1⟩ : EnrichedParcel).impervArea + (⟨7, 2, -1⟩ : EnrichedParcel).pervArea
      = pyRound (Parcel.dissolvedArea sliverOps
          (Parcel.enrichRows sliverOps [sliverSurfA, sliverSurfB] [sliverParcel])
          (⟨7, 2, -1⟩ : EnrichedParcel).cobpin) :=
  perv_conservation_unclamped sliverOps [sliverSurfA, sliverSurfB] [sliverParcel]
    ⟨7, 2, -1⟩ (by with_unfolding_all decide)

/-- A parcel of area 10 met by three surface features whose intersections
with it measure 1.5 each (three disjoint 1 x 1.5 strips inside the parcel,
geometrically realizable). -/
def tieOps : GeoOps ℕ := ⟨fun _ _ => true, fun _ _ => 3/2, fun _ => 10, fun g _ => g⟩

/-- The parcel under the three strips. -/
def tieParcel : ParcelFeat ℕ := ⟨7, 0⟩

/-- First strip. -/
def tieSurfA : SurfFeat ℕ := ⟨1, 1, 1⟩

/-- Second strip. -/
def tieSurfB : SurfFeat ℕ := ⟨2, 1, 2⟩

/-- Third strip. -/
def tieSurfC : SurfFeat ℕ := ⟨3, 1, 3⟩

/-- C10 counterexample: each 1.5 intersection rounds (half to even) to 2,
summing to an impervious area of 6, while the exact total 4.5 rounds to 4:
the published value differs from the rounded exact sum by 2, more than half
a unit per contributing surface feature (3 features, 1.5). -/
theorem rounding_drift_counterexample :
    Parcel.impervious_metrics tieOps [tieSurfA, tieSurfB, tieSurfC] [tieParcel]
      = [⟨7, 6, 4⟩] ∧
    pyRound ((3 : ℚ)/2 + 3/2 + 3/2) = 4 ∧
    ¬(|(6 : ℚ) - (4 : ℚ)| ≤ 3 * (1/2)) := by
  with_unfolding_all decide

/-- C10 amended: the published impervious area is the sum of the per-pair
intersection areas each rounded before summation — not the rounded exact
total; it stays within half a unit per contributing pair of the exact
total, hence within half a unit per pair plus one half of the rounded
exact total (a bound that half-to-even rounding attains, see the
counterexample). -/
theorem imperv_sums_rounded_pairs {G : Type} (ops : GeoOps G)
    (surfaces : List (SurfFeat G)) (parcels : List (ParcelFeat G)) (r : EnrichedParcel)
    (h : r ∈ Parcel.impervious_metrics ops surfaces parcels) :
    r.impervArea = ((Parcel.groupPairs ops surfaces parcels r.cobpin).map
        (fun sp => pyRound (ops.interArea sp.1.geom sp.2.geom))).sum ∧
    |(r.impervArea : ℚ) - ((Parcel.groupPairs ops surfaces parcels r.cobpin).map
        (fun sp => ops.interArea sp.1.geom sp.2.geom)).sum|
      ≤ ((Parcel.groupPairs ops surfaces parcels r.cobpin).length : ℚ) / 2 ∧
    |(r.impervArea : ℚ) - (pyRound (((Parcel.groupPairs ops surfaces parcels r.cobpin).map
        (fun sp => ops.interArea sp.1.geom sp.2.geom)).sum) : ℚ)|
      ≤ ((Parcel.groupPairs ops surfaces parcels r.cobpin).length : ℚ) / 2 + 1/2 := by
  unfold Parcel.impervious_metrics at h
  rw [List.mem_map] at h
  obtain ⟨k, _, rfl⟩ := h
  have hcob : (Parcel.enrichKey ops (Parcel.enrichRows ops surfaces parcels) k).cobpin
      = k := rfl
  rw [hcob]
  have himp : (Parcel.enrichKey ops (Parcel.enrichRows ops surfaces parcels) k).impervArea
      = ((Parcel.groupPairs ops surfaces parcels k).map
          (fun sp => pyRound (ops.interArea sp.1.geom sp.2.geom))).sum := by
    show Parcel.impervSum (Parcel.enrichRows ops surfaces parcels) k = _
    unfold Parcel.impervSum
    rw [groupRows_enrichRows, List.map_map]
    rfl
  refine ⟨himp, ?_, ?_⟩
  all_goals
    rw [himp]
  all_goals
    have hA := abs_sum_pyRound_sub ((Parcel.groupPairs ops surfaces parcels k).map
      (fun sp => ops.interArea sp.1.geom sp.2.geom))
    rw [List.map_map, List.length_map] at hA
    simp only [Function.comp_def] at hA
    have hcast : ((((Parcel.groupPairs ops surfaces parcels k).map
        (fun sp => pyRound (ops.interArea sp.1.geom sp.2.geom))).sum : ℤ) : ℚ)
        = ((Parcel.groupPairs ops surfaces parcels k).map
            (fun sp => (pyRound (ops.interArea sp.1.geom sp.2.geom) : ℚ))).sum := by
      have := cast_sum_pyRound ((Parcel.groupPairs ops surfaces parcels k).map
        (fun sp => ops.interArea sp.1.geom sp.2.geom))
      rw [List.map_map, List.map_map] at this
      exact this
    rw [hcast]
  · exact hA
  · have hB := abs_pyRound_sub_le (((Parcel.groupPairs ops surfaces parcels k).map
      (fun sp => ops.interArea sp.1.geom sp.2.geom)).sum)
    calc |((Parcel.groupPairs ops surfaces parcels k).map
            (fun sp => (pyRound (ops.interArea sp.1.geom sp.2.geom) : ℚ))).sum
          - (pyRound (((Parcel.groupPairs ops surfaces parcels k).map
              (fun sp => ops.interArea sp.1.geom sp.2.geom)).sum) : ℚ)|
        ≤ |((Parcel.groupPairs ops surfaces parcels k).map
            (fun sp => (pyRound (ops.interArea sp.1.geom sp.2.geom) : ℚ))).sum
          - ((Parcel.groupPairs ops surfaces parcels k).map
              (fun sp => ops.interArea sp.1.geom sp.2.geom)).sum|
          + |((Parcel.groupPairs ops surfaces parcels k).map
              (fun sp => ops.interArea sp.1.geom sp.2.geom)).sum
            - (pyRound (((Parcel.groupPairs ops surfaces parcels k).map
                (fun sp => ops.interArea sp.1.geom sp.2.geom)).sum) : ℚ)| :=
          abs_sub_le _ _ _
      _ ≤ ((Parcel.groupPairs ops surfaces parcels k).length : ℚ) / 2 + 1/2 := by
          have hB' := abs_sub_comm
            ((pyRound (((Parcel.groupPairs ops surfaces parcels k).map
              (fun sp => ops.interArea sp.1.geom sp.2.geom)).sum) : ℚ))
            (((Parcel.groupPairs ops surfaces parcels k).map
              (fun sp => ops.interArea sp.1.geom sp.2.geom)).sum)
          rw [hB'] at hB
          linarith

theorem imperv_sums_rounded_pairs_witness :
    (⟨7, 6, 4⟩ : EnrichedParcel).impervArea
      = ((Parcel.groupPairs tieOps [tieSurfA, tieSurfB, tieSurfC] [tieParcel]
          (⟨7, 6, 4⟩ : EnrichedParcel).cobpin).map
        (fun sp => pyRound (tieOps.interArea sp.1.geom sp.2.geom))).sum ∧
    |((⟨7, 6, 4⟩ : EnrichedParcel).impervArea : ℚ)
        - ((Parcel.groupPairs tieOps [tieSurfA, tieSurfB, tieSurfC] [tieParcel]
            (⟨7, 6, 4⟩ : EnrichedParcel).cobpin).map
          (fun sp => tieOps.interArea sp.1.geom sp.2.geom)).sum|
      ≤ ((Parcel.groupPairs tieOps [tieSurfA, tieSurfB, tieSurfC] [tieParcel]
          (⟨7, 6, 4⟩ : EnrichedParcel).cobpin).length : ℚ) / 2 ∧
    |((⟨7, 6, 4⟩ : EnrichedParcel).impervArea : ℚ)
        - (pyRound (((Parcel.groupPairs tieOps [tieSurfA, tieSurfB, tieSurfC] [tieParcel]
            (⟨7, 6, 4⟩ : EnrichedParcel).cobpin).map
          (fun sp => tieOps.interArea sp.1.geom sp.2.geom)).sum) : ℚ)|
      ≤ ((Parcel.groupPairs tieOps [tieSurfA, tieSurfB, tieSurfC] [tieParcel]
          (⟨7, 6, 4⟩ : EnrichedParcel).cobpin).length : ℚ) / 2 + 1/2 :=
  imperv_sums_rounded_pairs tieOps [tieSurfA, tieSurfB, tieSurfC] [tieParcel]
    ⟨7, 6, 4⟩ (by with_unfolding_all decide)
